import Mathlib

/-!
Verification of the simulation core of the adRunner game (`src/GameCanvas.tsx`).

The TypeScript source is shallowly embedded: JavaScript numbers become
rationals (`ℚ`), `Math.floor` becomes `Int.floor`, entity arrays become
lists, the mutable world record becomes an explicit `State` value threaded
through each phase of the per-frame `update`, and `Math.random()` becomes an
oracle `rnd : ℕ → ℚ` consumed through an index stored in the state.
-/

namespace AdRunner

/-! ## Geometry and math utilities (`clamp`, `lerp`, `aabb`) -/

def clamp (v a b : ℚ) : ℚ := max a (min b v)

def lerp (a b t : ℚ) : ℚ := a + (b - a) * t

/-- Axis-aligned rectangle: `{ x, y, w, h }`. -/
structure Rect where
  x : ℚ
  y : ℚ
  w : ℚ
  h : ℚ
deriving DecidableEq, Repr

/-- Axis-aligned bounding-box overlap test, as in the source `aabb`. -/
def aabb (a b : Rect) : Prop :=
  a.x < b.x + b.w ∧ a.x + a.w > b.x ∧ a.y < b.y + b.h ∧ a.y + a.h > b.y

instance (a b : Rect) : Decidable (aabb a b) := by
  unfold aabb; infer_instance

/-! ## Constants -/

def LOGICAL_W : ℚ := 360
def LOGICAL_H : ℚ := 640

def PLAYER_SEGMENT_WIDTH : ℚ := 10
def BASE_PLAYER_SEGMENT_SPACING : ℚ := 8
def MIN_PLAYER_SEGMENT_SPACING : ℚ := 2
def BOSS_INTERVAL : ℚ := 2000
def BOSS_SPAWN_MARGIN : ℚ := 40
def BOSS_WIDTH : ℚ := 90
def BOSS_HEIGHT : ℚ := 90
def MAX_PLAYER_SEGMENTS : ℤ := 20
def MIN_PLAYER_WIDTH : ℚ := 32
def OBSTACLE_WIDTH : ℚ := 56
def OBSTACLE_HEIGHT : ℚ := 56
def OBSTACLE_HP_BASE : ℚ := 32
def OBSTACLE_HP_PER_DIST : ℚ := 10
def ATTACK_ITEM_SIZE : ℚ := 22
def ATTACK_ITEM_FALL_SPEED : ℚ := 140
def MAX_ATTACK_BONUS : ℚ := 6

/-! ## Player crowd geometry -/

/-- `getPlayerCount`: the segment count derived from the score value; the
source computes `max(1, min(20, max(0, floor(value))))`, an integer in
`[1, 20]`, which we return as a natural number. -/
def getPlayerCount (value : ℚ) : ℕ :=
  let intValue : ℤ := max 0 ⌊value⌋
  (max 1 (min MAX_PLAYER_SEGMENTS intValue)).toNat

/-- `getPlayerSegmentSpacing`: base 8, reduced by 1 per 4 additional
segments (`reduction = floor((count-1)/4)`), floored at 2. -/
def getPlayerSegmentSpacing (count : ℕ) : ℚ :=
  if count ≤ 1 then BASE_PLAYER_SEGMENT_SPACING
  else
    let reduction : ℕ := (count - 1) / 4
    max MIN_PLAYER_SEGMENT_SPACING (BASE_PLAYER_SEGMENT_SPACING - (reduction : ℚ))

/-- `getCrowdWidth`: total width of `count` segments with inter-segment
spacing; a function of the count alone. -/
def getCrowdWidth (count : ℕ) : ℚ :=
  if count ≤ 0 then MIN_PLAYER_WIDTH
  else (count : ℚ) * PLAYER_SEGMENT_WIDTH +
    ((count - 1 : ℕ) : ℚ) * getPlayerSegmentSpacing count

/-- `getPlayerSegmentPositions`: x positions of the segments, centered in
the player rectangle. -/
def getPlayerSegmentPositions (player : Rect) (count : ℕ) : List ℚ :=
  let totalSegmentWidth := getCrowdWidth count
  let segmentStartX := player.x + max 0 ((player.w - totalSegmentWidth) / 2)
  let spacing := getPlayerSegmentSpacing count
  (List.range count).map fun i =>
    segmentStartX + (i : ℚ) * (PLAYER_SEGMENT_WIDTH + spacing)

/-! ## Gate operations -/

inductive GateOpType where
  | add
  | sub
  | mul
  | div
deriving DecidableEq, Repr

structure GateOp where
  type : GateOpType
  amount : ℚ
  label : String
deriving DecidableEq, Repr

/-- `applyGate`: apply a gate operation to the score value; the result is
clamped below at 0 (`Math.max(0, v)`). -/
def applyGate (value : ℚ) (op : GateOp) : ℚ :=
  let v : ℚ :=
    match op.type with
    | .add => value + op.amount
    | .sub => value - op.amount
    | .mul => value * op.amount
    | .div => (⌊value / op.amount⌋ : ℚ)
  max 0 v

/-- The fixed operation set used by `spawnGatePair` in the source. -/
def gatePairOps : List GateOp :=
  [⟨.add, 5, "+10"⟩, ⟨.mul, 2, "×2"⟩, ⟨.sub, 5, "-5"⟩, ⟨.div, 2, "÷2"⟩]

/-- The gate contract as worded in the spec: add `value+amount`, sub
`value-amount`, mul `value*amount`, div `floor(value/amount)`, clamped to a
minimum of 0. -/
def applyGateSpec (value : ℚ) (op : GateOp) : ℚ :=
  max 0 <|
    match op.type with
    | .add => value + op.amount
    | .sub => value - op.amount
    | .mul => value * op.amount
    | .div => (⌊value / op.amount⌋ : ℚ)

/-! ## Entity model -/

/-- Gate: rectangle + operation + `used` flag. -/
structure Gate extends Rect where
  op : GateOp
  used : Bool
deriving DecidableEq, Repr

/-- Enemy (zombie or boss): rectangle + hp + contact damage. -/
structure Enemy extends Rect where
  hp : ℚ
  damage : ℚ
deriving DecidableEq, Repr

/-- Obstacle: rectangle + hp + maxHp. -/
structure Obstacle extends Rect where
  hp : ℚ
  maxHp : ℚ
deriving DecidableEq, Repr

/-- Attack item: rectangle + fall velocity + bonus + collected flag
(the JS `collected?` field is absent initially, i.e. `false`). -/
structure Item extends Rect where
  vy : ℚ
  bonus : ℚ
  collected : Bool
deriving DecidableEq, Repr

/-- Bullet: rectangle + velocity + remaining life + damage. -/
structure Bullet extends Rect where
  vx : ℚ
  vy : ℚ
  life : ℚ
  dmg : ℚ
deriving DecidableEq, Repr

/-- Floater: transient text at a position with drift and life. -/
structure Floater where
  text : String
  x : ℚ
  y : ℚ
  vy : ℚ
  life : ℚ
deriving DecidableEq, Repr

/-- The mutable world record of `runGame` (plus the separately held
`player` rectangle and the next index into the random oracle). -/
structure State where
  time : ℚ
  dist : ℚ
  speed : ℚ
  scoreValue : ℚ
  alive : Bool
  targetX : ℚ
  gates : List Gate
  zombies : List Enemy
  bosses : List Enemy
  obstacles : List Obstacle
  items : List Item
  bullets : List Bullet
  floaters : List Floater
  shootCooldown : ℚ
  lastSeg : ℤ
  nextBossDist : ℚ
  attackBonus : ℚ
  player : Rect
  rng : ℕ
deriving DecidableEq, Repr

/-- One call to `Math.random()`: read the oracle at the current index and
advance the index. -/
def random (rnd : ℕ → ℚ) (s : State) : ℚ × State :=
  (rnd s.rng, { s with rng := s.rng + 1 })

/-- Render a score delta the way the source builds the floater text:
a `+` prefix for non-negative deltas. -/
def signedText (delta : ℚ) : String :=
  (if 0 ≤ delta then "+" else "") ++ toString delta

/-- The floater record pushed by `spawnFloater` (vy −30, life 0.9). -/
def mkFloater (text : String) (x y : ℚ) : Floater :=
  { text := text, x := x, y := y, vy := -30, life := 0.9 }

/-- `spawnFloater`: push a floater onto the state. -/
def spawnFloater (s : State) (text : String) (x y : ℚ) : State :=
  { s with floaters := s.floaters ++ [mkFloater text x y] }

/-! ## Spawners -/

def makeGate (x y w h : ℚ) (op : GateOp) : Gate :=
  { x := x, y := y, w := w, h := h, op := op, used := false }

/-- `spawnGatePair`: two gates at fixed horizontal positions, with two
independently random operations from `gatePairOps` (`(Math.random()*4)|0`
becomes `⌊r*4⌋`, which agrees for oracle values in `[0,1)`). -/
def spawnGatePair (rnd : ℕ → ℚ) (s : State) (y : ℚ) : State :=
  let ops := gatePairOps
  let (ra, s) := random rnd s
  let (rb, s) := random rnd s
  let a := ops.getD (⌊ra * (ops.length : ℚ)⌋).toNat ⟨.add, 5, "+10"⟩
  let b := ops.getD (⌊rb * (ops.length : ℚ)⌋).toNat ⟨.add, 5, "+10"⟩
  let gateW : ℚ := 130
  let gateH : ℚ := 44
  let verticalSpacing := gateH + 120
  let s := { s with gates := s.gates ++ [makeGate (LOGICAL_W * 0.25 - gateW / 2) y gateW gateH a] }
  { s with gates := s.gates ++ [makeGate (LOGICAL_W * 0.75 - gateW / 2) (y - verticalSpacing) gateW gateH b] }

/-- The body of the `spawnZombies` loop, pushing `n` zombies starting at
loop index `i`; hp and damage are computed from the (unchanged) distance
exactly as in the source. -/
def spawnZombiesLoop (rnd : ℕ → ℚ) (y : ℚ) : ℕ → ℕ → State → State
  | _, 0, s => s
  | i, n + 1, s =>
    let (r, s) := random rnd s
    let zx := 40 + r * (LOGICAL_W - 80)
    let s := { s with zombies := s.zombies ++
      [{ x := zx - 18, y := y + (i : ℚ) * 40, w := 36, h := 36,
         hp := 12 + (⌊s.dist / 200⌋ : ℚ) * 8,
         damage := 3 + (⌊s.dist / 1000⌋ : ℚ) }] }
    spawnZombiesLoop rnd y (i + 1) n s

/-- `spawnZombies`: a wave of `min 40 (6 + (3 + ⌊r*6⌋) + ⌊dist/800⌋)`
zombies, vertically staggered by 40. -/
def spawnZombies (rnd : ℕ → ℚ) (s : State) (y : ℚ) : State :=
  let earlyWave : ℤ := 6
  let (r, s) := random rnd s
  let randomBonus : ℤ := 3 + ⌊r * 6⌋
  let intensity : ℤ := ⌊s.dist / 800⌋
  let count : ℤ := min 40 (earlyWave + randomBonus + intensity)
  spawnZombiesLoop rnd y 0 count.toNat s

/-- `spawnObstacle`: one obstacle with distance-scaled hp at a random x. -/
def spawnObstacle (rnd : ℕ → ℚ) (s : State) (y : ℚ) : State :=
  let hp := OBSTACLE_HP_BASE + (⌊s.dist / 300⌋ : ℚ) * OBSTACLE_HP_PER_DIST
  let availableX := max 0 (LOGICAL_W - OBSTACLE_WIDTH - 60)
  let (r, s) := random rnd s
  let x := 30 + r * availableX
  { s with obstacles := s.obstacles ++
    [{ x := x, y := y, w := OBSTACLE_WIDTH, h := OBSTACLE_HEIGHT, hp := hp, maxHp := hp }] }

/-- The item record pushed by `spawnAttackItem`. -/
def mkAttackItem (centerX topY bonus : ℚ) : Item :=
  { x := centerX - ATTACK_ITEM_SIZE / 2, y := topY,
    w := ATTACK_ITEM_SIZE, h := ATTACK_ITEM_SIZE,
    vy := ATTACK_ITEM_FALL_SPEED, bonus := bonus, collected := false }

/-- `spawnAttackItem`: push a falling attack item. -/
def spawnAttackItem (s : State) (centerX topY bonus : ℚ) : State :=
  { s with items := s.items ++ [mkAttackItem centerX topY bonus] }

/-- `spawnBoss`: one boss with distance-scaled hp/damage at a random x;
advances the next-boss threshold by `BOSS_INTERVAL`. -/
def spawnBoss (rnd : ℕ → ℚ) (s : State) : State :=
  let hp := 200 + (⌊s.dist / 400⌋ : ℚ) * 50
  let availableWidth := max 0 (LOGICAL_W - BOSS_SPAWN_MARGIN * 2 - BOSS_WIDTH)
  let (r, s) := random rnd s
  let x := BOSS_SPAWN_MARGIN + r * availableWidth
  let s := { s with bosses := s.bosses ++
    [({ x := x, y := -BOSS_HEIGHT - 120, w := BOSS_WIDTH, h := BOSS_HEIGHT,
        hp := hp, damage := 12 + (⌊s.dist / 800⌋ : ℚ) } : Enemy)] }
  { s with nextBossDist := s.nextBossDist + BOSS_INTERVAL }

/-- Number of iterations the `while (dist >= nextBossDist)` loop of
`ensureBossSpawn` performs: each iteration adds `BOSS_INTERVAL` to the
threshold, so the count is `⌊(dist - nextBossDist)/BOSS_INTERVAL⌋ + 1`,
taken at 0 when the guard fails immediately. -/
def bossSpawnNeeded (s : State) : ℕ :=
  (⌊(s.dist - s.nextBossDist) / BOSS_INTERVAL⌋ + 1).toNat

/-- The `while` loop of `ensureBossSpawn`, with the guard re-checked each
iteration and a fuel bound on the iteration count. -/
def bossSpawnLoop (rnd : ℕ → ℚ) : ℕ → State → State
  | 0, s => s
  | n + 1, s =>
    if s.nextBossDist ≤ s.dist then bossSpawnLoop rnd n (spawnBoss rnd s) else s

/-- `ensureBossSpawn`: spawn a boss for every crossed threshold
(`while (state.dist >= state.nextBossDist) spawnBoss()`). -/
def ensureBossSpawn (rnd : ℕ → ℚ) (s : State) : State :=
  bossSpawnLoop rnd (bossSpawnNeeded s) s

/-- The body of the `while (lastSeg < needSeg)` loop of `ensureSpawns`:
advance the segment cursor and spawn content by `lastSeg % 3`. `needSeg`
is fixed for the whole loop, so the iteration count is bounded by
`needSeg - lastSeg`; the guard is still re-checked each iteration. -/
def ensureSpawnsLoop (rnd : ℕ → ℚ) (needSeg : ℤ) : ℕ → State → State
  | 0, s => s
  | n + 1, s =>
    if s.lastSeg < needSeg then
      let s := { s with lastSeg := s.lastSeg + 1 }
      let y := -800 - (s.lastSeg : ℚ) * 240
      let s :=
        if s.lastSeg % 3 = 0 then spawnGatePair rnd s y
        else if s.lastSeg % 3 = 1 then spawnZombies rnd s y
        else spawnObstacle rnd s y
      ensureSpawnsLoop rnd needSeg n s
    else s

/-- `ensureSpawns`: generate lane content up to the lookahead horizon. -/
def ensureSpawns (rnd : ℕ → ℚ) (s : State) : State :=
  let segLen : ℚ := 240
  let needSeg : ℤ := ⌊(s.dist + 1400) / segLen⌋
  ensureSpawnsLoop rnd needSeg (needSeg - s.lastSeg).toNat s

/-! ## Damage and score mutation -/

/-- `hurtPlayer`: subtract a positive damage amount from the score (floored
at 0), emit a signed-delta floater at the player, and set `alive := false`
when the result reaches 0. Guarded to do nothing when already dead or when
the amount is not positive. -/
def hurtPlayer (s : State) (amount : ℚ) : State :=
  if s.alive = true ∧ 0 < amount then
    let before := s.scoreValue
    let s := { s with scoreValue := max 0 (s.scoreValue - amount) }
    let delta := s.scoreValue - before
    let s := spawnFloater s (signedText delta) (s.player.x + s.player.w / 2) s.player.y
    if s.scoreValue ≤ 0 then { s with alive := false } else s
  else s

/-- Result of the gate-crossing loop: the rewritten gate list, the updated
score value, and the floater list. -/
structure GatesResult where
  gates : List Gate
  scoreValue : ℚ
  floaters : List Floater
deriving DecidableEq, Repr

/-- The gate-crossing loop: each unused gate overlapping the player is
marked used, its operation is applied to the score, and a signed-delta
floater is emitted at the player's position. -/
def gatesStep (player : Rect) : List Gate → ℚ → List Floater → GatesResult
  | [], v, fs => ⟨[], v, fs⟩
  | g :: gs, v, fs =>
    if g.used = false ∧ aabb player g.toRect then
      let v' := applyGate v g.op
      let delta := v' - v
      let fs' := fs ++ [mkFloater (signedText delta) (player.x + player.w / 2) player.y]
      let r := gatesStep player gs v' fs'
      ⟨{ g with used := true } :: r.gates, r.scoreValue, r.floaters⟩
    else
      let r := gatesStep player gs v fs
      ⟨g :: r.gates, r.scoreValue, r.floaters⟩

/-- `shootAtNearest`: decrement the cooldown; once it reaches 0, fire one
bullet per player segment (damage `5 + attackBonus`) and reset the
cooldown to 0.08s. -/
def shootAtNearest (s : State) (dt : ℚ) : State :=
  let s := { s with shootCooldown := s.shootCooldown - dt }
  if 0 < s.shootCooldown then s
  else
    let segments := getPlayerSegmentPositions s.player (getPlayerCount s.scoreValue)
    let bulletDamage := 5 + s.attackBonus
    let s := { s with bullets := s.bullets ++ segments.map fun sx =>
      ({ x := sx + PLAYER_SEGMENT_WIDTH / 2 - 3, y := s.player.y - 10, w := 6, h := 10,
         vx := 0, vy := -520, life := 1.1, dmg := bulletDamage } : Bullet) }
    { s with shootCooldown := 0.08 }

/-! ## Bullet collision resolution -/

def damageEnemy (dmg : ℚ) (e : Enemy) : Enemy := { e with hp := e.hp - dmg }

def damageObstacle (dmg : ℚ) (o : Obstacle) : Obstacle := { o with hp := o.hp - dmg }

/-- One pass of a bullet over an enemy group, in collection order: skip
enemies with `hp ≤ 0` and enemies the bullet misses; at the first hit,
damage that enemy and stop, reporting the floater anchor position. -/
def hitEnemies (b : Bullet) : List Enemy → Option (List Enemy × ℚ × ℚ)
  | [] => none
  | e :: es =>
    if e.hp ≤ 0 ∨ ¬ aabb b.toRect e.toRect then
      match hitEnemies b es with
      | none => none
      | some (es', fx, fy) => some (e :: es', fx, fy)
    else
      some (damageEnemy b.dmg e :: es, e.x + e.w / 2, e.y)

/-- The attack item dropped by a destroyed obstacle: bottom-center
position, `bonus = max 1 (min MAX_ATTACK_BONUS ⌊maxHp/30⌋)`. -/
def obstacleDrop (o : Obstacle) : Item :=
  mkAttackItem (o.x + o.w / 2) (o.y + o.h)
    (max 1 (min MAX_ATTACK_BONUS (⌊o.maxHp / 30⌋ : ℚ)))

/-- One pass of a bullet over the obstacle list: skip destroyed or missed
obstacles; at the first hit, damage the obstacle and stop, additionally
producing the dropped attack item when the hit reduced hp to `≤ 0`. -/
def hitObstacles (b : Bullet) : List Obstacle → Option (List Obstacle × ℚ × ℚ × Option Item)
  | [] => none
  | o :: os =>
    if o.hp ≤ 0 ∨ ¬ aabb b.toRect o.toRect then
      match hitObstacles b os with
      | none => none
      | some (os', fx, fy, drop) => some (o :: os', fx, fy, drop)
    else
      let o' := damageObstacle b.dmg o
      some (o' :: os, o.x + o.w / 2, o.y,
        if o'.hp ≤ 0 then some (obstacleDrop o') else none)

/-- Result of resolving one bullet (or the whole bullet loop). -/
structure HitResult where
  bullet : Bullet
  zombies : List Enemy
  bosses : List Enemy
  obstacles : List Obstacle
  items : List Item
  floaters : List Floater
deriving DecidableEq, Repr

/-- Resolve a single live bullet: zombies are tested first, then bosses,
then (only if no enemy was hit) obstacles; the first hit consumes the
bullet (`life := 0`) and emits a damage floater, and an obstacle death
spawns its attack item. -/
def resolveBullet (zs bs : List Enemy) (os : List Obstacle) (its : List Item)
    (fs : List Floater) (b : Bullet) : HitResult :=
  if b.life ≤ 0 then ⟨b, zs, bs, os, its, fs⟩
  else
    match hitEnemies b zs with
    | some (zs', fx, fy) =>
      ⟨{ b with life := 0 }, zs', bs, os, its,
        fs ++ [mkFloater ("-" ++ toString b.dmg) fx fy]⟩
    | none =>
      match hitEnemies b bs with
      | some (bs', fx, fy) =>
        ⟨{ b with life := 0 }, zs, bs', os, its,
          fs ++ [mkFloater ("-" ++ toString b.dmg) fx fy]⟩
      | none =>
        match hitObstacles b os with
        | some (os', fx, fy, drop) =>
          ⟨{ b with life := 0 }, zs, bs, os', its ++ drop.toList,
            fs ++ [mkFloater ("-" ++ toString b.dmg) fx fy]⟩
        | none => ⟨b, zs, bs, os, its, fs⟩

/-- Result of the whole bullet loop. -/
structure BulletsResult where
  bullets : List Bullet
  zombies : List Enemy
  bosses : List Enemy
  obstacles : List Obstacle
  items : List Item
  floaters : List Floater
deriving DecidableEq, Repr

/-- The bullet collision loop over all bullets, in collection order. -/
def bulletsStep (zs bs : List Enemy) (os : List Obstacle) (its : List Item)
    (fs : List Floater) : List Bullet → BulletsResult
  | [] => ⟨[], zs, bs, os, its, fs⟩
  | b :: rest =>
    let r := resolveBullet zs bs os its fs b
    let r2 := bulletsStep r.zombies r.bosses r.obstacles r.items r.floaters rest
    ⟨r.bullet :: r2.bullets, r2.zombies, r2.bosses, r2.obstacles, r2.items, r2.floaters⟩

/-! ## Player-vs-world contact damage -/

/-- Obstacle contact loop: 1 damage per live overlapping obstacle; the
loop breaks as soon as the player is dead. -/
def obstaclesContact : State → List Obstacle → State
  | s, [] => s
  | s, o :: os =>
    if s.alive = false then s
    else if o.hp ≤ 0 then obstaclesContact s os
    else if aabb s.player o.toRect then obstaclesContact (hurtPlayer s 1) os
    else obstaclesContact s os

/-- Zombie contact loop: each live overlapping zombie deals its damage. -/
def zombiesContact : State → List Enemy → State
  | s, [] => s
  | s, z :: zs =>
    if z.hp ≤ 0 then zombiesContact s zs
    else if aabb s.player z.toRect then zombiesContact (hurtPlayer s z.damage) zs
    else zombiesContact s zs

/-- Boss contact loop: each live overlapping boss deals its damage. -/
def bossesContact : State → List Enemy → State
  | s, [] => s
  | s, bo :: bs =>
    if bo.hp ≤ 0 then bossesContact s bs
    else if aabb s.player bo.toRect then bossesContact (hurtPlayer s bo.damage) bs
    else bossesContact s bs

/-! ## Item collection -/

/-- Per-item movement: scroll delta plus the item's own fall velocity
(`item.y += dy; item.y += item.vy * dt`). -/
def moveItem (dy dt : ℚ) (it : Item) : Item :=
  let it := { it with y := it.y + dy }
  { it with y := it.y + it.vy * dt }

/-- Result of the item loop. -/
structure ItemsResult where
  items : List Item
  attackBonus : ℚ
  floaters : List Floater
deriving DecidableEq, Repr

/-- The item loop: move each item; an uncollected item overlapping the
player raises the attack bonus by its bonus up to `MAX_ATTACK_BONUS`,
emits a floater only when something was actually gained, and is marked
collected. -/
def itemsStep (player : Rect) (dy dt : ℚ) : List Item → ℚ → List Floater → ItemsResult
  | [], ab, fs => ⟨[], ab, fs⟩
  | it :: its, ab, fs =>
    let it := moveItem dy dt it
    if it.collected = true then
      let r := itemsStep player dy dt its ab fs
      ⟨it :: r.items, r.attackBonus, r.floaters⟩
    else if ¬ aabb player it.toRect then
      let r := itemsStep player dy dt its ab fs
      ⟨it :: r.items, r.attackBonus, r.floaters⟩
    else
      let before := ab
      let ab' := min MAX_ATTACK_BONUS (ab + it.bonus)
      let gained := ab' - before
      let fs' :=
        if 0 < gained then
          fs ++ [mkFloater ("ATTACK +" ++ toString gained) (it.x + it.w / 2) it.y]
        else fs
      let r := itemsStep player dy dt its ab' fs'
      ⟨{ it with collected := true } :: r.items, r.attackBonus, r.floaters⟩

/-! ## Pruning -/

def pruneGates (l : List Gate) : List Gate :=
  l.filter fun g => decide (g.y < LOGICAL_H + 100 ∧ g.used = false)

def pruneZombies (l : List Enemy) : List Enemy :=
  l.filter fun z => decide (z.y < LOGICAL_H + 100 ∧ 0 < z.hp)

def pruneBosses (l : List Enemy) : List Enemy :=
  l.filter fun bo => decide (bo.y < LOGICAL_H + 200 ∧ 0 < bo.hp)

def pruneObstacles (l : List Obstacle) : List Obstacle :=
  l.filter fun o => decide (o.y < LOGICAL_H + 200 ∧ 0 < o.hp)

def pruneItems (l : List Item) : List Item :=
  l.filter fun it => decide (it.y < LOGICAL_H + 80 ∧ it.collected = false)

def pruneBullets (l : List Bullet) : List Bullet :=
  l.filter fun b => decide (0 < b.life ∧ -50 < b.y)

def pruneFloaters (l : List Floater) : List Floater :=
  l.filter fun f => decide (0 < f.life)

/-! ## The per-frame simulation step -/

/-- `update(dt)`: the full per-frame simulation step, phase by phase in
source order. Returns the state unchanged when `alive` is false. -/
def update (rnd : ℕ → ℚ) (dt : ℚ) (s0 : State) : State :=
  if s0.alive = false then s0
  else
    let playerCount := getPlayerCount s0.scoreValue
    let crowdWidth := max MIN_PLAYER_WIDTH (getCrowdWidth playerCount)
    let playerCenterX := s0.player.x + s0.player.w / 2
    let s : State := { s0 with player := { s0.player with w := crowdWidth, x := playerCenterX - crowdWidth / 2 } }
    let s : State := { s with time := s.time + dt, dist := s.dist + s.speed * dt }
    let desired := clamp (s.targetX - s.player.w / 2) 18 (LOGICAL_W - s.player.w - 18)
    let s : State := { s with player := { s.player with x := lerp s.player.x desired 0.18 } }
    let dy := s.speed * dt
    let s : State := { s with gates := s.gates.map fun g => { g with y := g.y + dy } }
    let s : State := { s with zombies := s.zombies.map fun z => { z with y := z.y + dy } }
    let movedBosses := s.bosses.map fun bo => { bo with y := bo.y + dy }
    let aliveAfterBosses := movedBosses.foldl
      (fun a bo => if LOGICAL_H ≤ bo.y + bo.h ∧ a = true then false else a) s.alive
    let s : State := { s with bosses := movedBosses, alive := aliveAfterBosses }
    let s : State := { s with obstacles := s.obstacles.map fun o => { o with y := o.y + dy } }
    let rg := gatesStep s.player s.gates s.scoreValue s.floaters
    let s : State := { s with gates := rg.gates, scoreValue := rg.scoreValue, floaters := rg.floaters }
    let s : State := shootAtNearest s dt
    let s : State := { s with bullets := s.bullets.map fun b =>
      { b with life := b.life - dt, x := b.x + b.vx * dt, y := b.y + b.vy * dt } }
    let rb := bulletsStep s.zombies s.bosses s.obstacles s.items s.floaters s.bullets
    let s : State := { s with
      bullets := rb.bullets, zombies := rb.zombies, bosses := rb.bosses,
      obstacles := rb.obstacles, items := rb.items, floaters := rb.floaters }
    let s : State := obstaclesContact s s.obstacles
    let s : State := zombiesContact s s.zombies
    let s : State := bossesContact s s.bosses
    let ri := itemsStep s.player dy dt s.items s.attackBonus s.floaters
    let s : State := { s with items := ri.items, attackBonus := ri.attackBonus, floaters := ri.floaters }
    let s : State := { s with floaters := s.floaters.map fun f =>
      { f with life := f.life - dt, y := f.y + f.vy * dt } }
    let s : State := { s with
      gates := pruneGates s.gates, zombies := pruneZombies s.zombies,
      bosses := pruneBosses s.bosses, obstacles := pruneObstacles s.obstacles,
      items := pruneItems s.items, bullets := pruneBullets s.bullets,
      floaters := pruneFloaters s.floaters }
    let s : State := ensureSpawns rnd s
    ensureBossSpawn rnd s

/-- The initial world state of `runGame` (including the initial `player`
rectangle). -/
def initState : State :=
  { time := 0, dist := 0, speed := 180, scoreValue := 1, alive := true,
    targetX := LOGICAL_W / 2,
    gates := [], zombies := [], bosses := [], obstacles := [], items := [],
    bullets := [], floaters := [],
    shootCooldown := 0, lastSeg := -1, nextBossDist := BOSS_INTERVAL,
    attackBonus := 0,
    player := { x := LOGICAL_W / 2 - 16, y := LOGICAL_H - 120, w := 32, h := 40 },
    rng := 0 }

/-! ## Concrete data used by witnesses and counterexamples -/

/-- A fixed random oracle (every `Math.random()` call returns 1/2). -/
def rndHalf : ℕ → ℚ := fun _ => 1 / 2

/-- A subtraction gate overlapping the initial player rectangle. -/
def subGateOnPlayer : Gate :=
  { x := 100, y := 500, w := 130, h := 44, op := ⟨.sub, 5, "-5"⟩, used := false }

/-- A boss whose bottom edge has reached the bottom of the lane. -/
def bossAtBottom : Enemy :=
  { x := 100, y := 600, w := 90, h := 90, hp := 100, damage := 12 }

/-- A state in which a gate crossing will reduce the score to exactly 0
with no enemy in contact (the spawner is already caught up at distance 0,
so a `dt = 0` step spawns nothing). -/
def gateZeroState : State :=
  { initState with
    lastSeg := 5
    gates := [subGateOnPlayer]
    scoreValue := 3 }

/-- A state refuting update(0) idempotence: the pointer target is away
from the player, a gate crossing is pending, and a boss sits at the lane
bottom. -/
def c3cexState : State :=
  { initState with
    targetX := 300
    lastSeg := 5
    gates := [subGateOnPlayer]
    bosses := [bossAtBottom]
    scoreValue := 3 }

/-- An uncollected attack item overlapping the initial player rectangle. -/
def itemOnPlayer : Item :=
  { x := 160, y := 525, w := 22, h := 22, vy := 0, bonus := 3, collected := false }

/-- The attack-bonus invariant: the global bonus is in `[0, 6]` and every
pending item carries a non-negative bonus (items are only ever created by
`spawnAttackItem` with a bonus clamped into `[1, 6]`). -/
def AttackBonusInv (s : State) : Prop :=
  0 ≤ s.attackBonus ∧ s.attackBonus ≤ MAX_ATTACK_BONUS ∧ ∀ it ∈ s.items, 0 ≤ it.bonus

/-- The skip condition of the bullet-vs-enemy loop: already dead or no
overlap. -/
def enemySkipped (b : Bullet) (e : Enemy) : Prop :=
  e.hp ≤ 0 ∨ ¬ aabb b.toRect e.toRect

/-- The skip condition of the bullet-vs-obstacle loop. -/
def obstacleSkipped (b : Bullet) (o : Obstacle) : Prop :=
  o.hp ≤ 0 ∨ ¬ aabb b.toRect o.toRect

/-- Position `i` holds the first enemy in the list that the bullet hits:
it is live and overlapped, and every earlier position is skipped. -/
def firstHitEnemy (b : Bullet) (l : List Enemy) (i : ℕ) : Prop :=
  ∃ hi : i < l.length, ¬ enemySkipped b (l.get ⟨i, hi⟩) ∧
    ∀ j, ∀ hj : j < l.length, j < i → enemySkipped b (l.get ⟨j, hj⟩)

/-- Position `i` holds the first obstacle in the list that the bullet
hits. -/
def firstHitObstacle (b : Bullet) (l : List Obstacle) (i : ℕ) : Prop :=
  ∃ hi : i < l.length, ¬ obstacleSkipped b (l.get ⟨i, hi⟩) ∧
    ∀ j, ∀ hj : j < l.length, j < i → obstacleSkipped b (l.get ⟨j, hj⟩)

/-- The number of destroyed obstacles (`hp ≤ 0`) in a list. -/
def countDead (os : List Obstacle) : ℕ :=
  os.countP fun o => decide (o.hp ≤ 0)

/-- A live bullet used by the single-hit witness. -/
def witnessBullet : Bullet :=
  { x := 0, y := 0, w := 6, h := 10, vx := 0, vy := -520, life := 1, dmg := 5 }

/-! # Theorems -/

/-- Helper: when `alive` is false, `update` returns the state unchanged
(the `if (!state.alive) return;` guard). -/
theorem update_of_dead (rnd : ℕ → ℚ) (dt : ℚ) (s : State) (h : s.alive = false) :
    update rnd dt s = s := by
  unfold update
  simp [h]

/-- C1: for every score value `v ≥ 0` and gate op in
`{add 5, mul 2, sub 5, div 2}`, `applyGate` returns the contract value
(add `v+amount`, sub `v-amount`, mul `v*amount`, div `⌊v/amount⌋`, each
clamped below at 0), and is always ≥ 0; concretely
`applyGate 10 ×2 = 20`, `applyGate 10 ÷2 = 5`, `applyGate 3 ÷2 = 1`, and
`applyGate 2 −5 = 0`. -/
theorem applyGate_meets_contract :
    (∀ v : ℚ, 0 ≤ v → ∀ op ∈ gatePairOps,
      applyGate v op = applyGateSpec v op ∧ 0 ≤ applyGate v op)
    ∧ applyGate 10 ⟨.mul, 2, "×2"⟩ = 20
    ∧ applyGate 10 ⟨.div, 2, "÷2"⟩ = 5
    ∧ applyGate 3 ⟨.div, 2, "÷2"⟩ = 1
    ∧ applyGate 2 ⟨.sub, 5, "-5"⟩ = 0 := by
  refine ⟨fun v _ op _ => ⟨rfl, le_max_left 0 _⟩, ?_, ?_, ?_, ?_⟩ <;>
    with_unfolding_all decide

/-- Witness for C1 at `v = 10`, `op = ×2`. -/
theorem applyGate_meets_contract_witness :
    0 ≤ (10 : ℚ) ∧ (⟨.mul, 2, "×2"⟩ : GateOp) ∈ gatePairOps ∧
      (applyGate 10 ⟨.mul, 2, "×2"⟩ = applyGateSpec 10 ⟨.mul, 2, "×2"⟩ ∧
        0 ≤ applyGate 10 ⟨.mul, 2, "×2"⟩) :=
  ⟨by norm_num, by with_unfolding_all decide,
    applyGate_meets_contract.1 10 (by norm_num) _ (by with_unfolding_all decide)⟩

/-- C4 counterexample: crowd width is not strictly monotone on `[1, 20]`:
it drops from 235 at 16 segments to 234 at 17 segments (the spacing step
from 5 to 4 outweighs the extra segment). -/
theorem getCrowdWidth_not_strictly_mono :
    (16 : ℕ) < 17 ∧ getCrowdWidth 17 < getCrowdWidth 16 := by
  with_unfolding_all decide

/-- C4 (amended): crowd width is a function of the segment count alone,
and is strictly increasing for every pair `m < n` in `[1, 20]` except the
single pair `(16, 17)`, where it drops from 235 to 234. -/
theorem getCrowdWidth_mono_off_16_17 :
    (∀ m ∈ Finset.Icc (1 : ℕ) 20, ∀ n ∈ Finset.Icc (1 : ℕ) 20,
      m < n → ¬(m = 16 ∧ n = 17) → getCrowdWidth m < getCrowdWidth n)
    ∧ getCrowdWidth 16 = 235 ∧ getCrowdWidth 17 = 234 := by
  with_unfolding_all decide

/-- Witness for the amended C4 at `m = 3`, `n = 5`. -/
theorem getCrowdWidth_mono_off_16_17_witness :
    3 ∈ Finset.Icc (1 : ℕ) 20 ∧ 5 ∈ Finset.Icc (1 : ℕ) 20 ∧ 3 < 5 ∧
      ¬((3 : ℕ) = 16 ∧ (5 : ℕ) = 17) ∧ getCrowdWidth 3 < getCrowdWidth 5 :=
  ⟨by decide, by decide, by decide, by decide,
    getCrowdWidth_mono_off_16_17.1 3 (by decide) 5 (by decide) (by decide) (by decide)⟩

/-- C8: when the alive flag is false, `update` changes nothing at all:
the returned state is the input state. -/
theorem update_dead_noop :
    ∀ (rnd : ℕ → ℚ) (dt : ℚ) (s : State), s.alive = false → update rnd dt s = s :=
  fun rnd dt s h => update_of_dead rnd dt s h

/-- Witness for C8 on a concrete dead state. -/
theorem update_dead_noop_witness :
    ({ initState with alive := false } : State).alive = false ∧
      update rndHalf 1 { initState with alive := false } =
        { initState with alive := false } :=
  ⟨rfl, update_dead_noop rndHalf 1 _ rfl⟩

/-! ## Preservation lemmas: which fields each phase leaves untouched -/

theorem spawnGatePair_preserves (rnd : ℕ → ℚ) (s : State) (y : ℚ) :
    (spawnGatePair rnd s y).time = s.time ∧ (spawnGatePair rnd s y).dist = s.dist ∧
    (spawnGatePair rnd s y).player = s.player ∧
    (spawnGatePair rnd s y).attackBonus = s.attackBonus ∧
    (spawnGatePair rnd s y).items = s.items :=
  ⟨rfl, rfl, rfl, rfl, rfl⟩

theorem spawnZombiesLoop_preserves (rnd : ℕ → ℚ) (y : ℚ) :
    ∀ (n i : ℕ) (s : State),
      (spawnZombiesLoop rnd y i n s).time = s.time ∧
      (spawnZombiesLoop rnd y i n s).dist = s.dist ∧
      (spawnZombiesLoop rnd y i n s).player = s.player ∧
      (spawnZombiesLoop rnd y i n s).attackBonus = s.attackBonus ∧
      (spawnZombiesLoop rnd y i n s).items = s.items := by
  intro n
  induction n with
  | zero => exact fun i s => ⟨rfl, rfl, rfl, rfl, rfl⟩
  | succ n ih =>
    intro i s
    simp only [spawnZombiesLoop]
    exact ⟨(ih _ _).1, (ih _ _).2.1, (ih _ _).2.2.1, (ih _ _).2.2.2.1, (ih _ _).2.2.2.2⟩

theorem spawnZombies_preserves (rnd : ℕ → ℚ) (s : State) (y : ℚ) :
    (spawnZombies rnd s y).time = s.time ∧ (spawnZombies rnd s y).dist = s.dist ∧
    (spawnZombies rnd s y).player = s.player ∧
    (spawnZombies rnd s y).attackBonus = s.attackBonus ∧
    (spawnZombies rnd s y).items = s.items :=
  spawnZombiesLoop_preserves rnd y _ _ _

theorem spawnObstacle_preserves (rnd : ℕ → ℚ) (s : State) (y : ℚ) :
    (spawnObstacle rnd s y).time = s.time ∧ (spawnObstacle rnd s y).dist = s.dist ∧
    (spawnObstacle rnd s y).player = s.player ∧
    (spawnObstacle rnd s y).attackBonus = s.attackBonus ∧
    (spawnObstacle rnd s y).items = s.items :=
  ⟨rfl, rfl, rfl, rfl, rfl⟩

theorem spawnBoss_preserves (rnd : ℕ → ℚ) (s : State) :
    (spawnBoss rnd s).time = s.time ∧ (spawnBoss rnd s).dist = s.dist ∧
    (spawnBoss rnd s).player = s.player ∧
    (spawnBoss rnd s).attackBonus = s.attackBonus ∧
    (spawnBoss rnd s).items = s.items :=
  ⟨rfl, rfl, rfl, rfl, rfl⟩

theorem spawnBoss_nextBossDist (rnd : ℕ → ℚ) (s : State) :
    (spawnBoss rnd s).nextBossDist = s.nextBossDist + BOSS_INTERVAL := rfl

theorem spawnBoss_bosses_length (rnd : ℕ → ℚ) (s : State) :
    (spawnBoss rnd s).bosses.length = s.bosses.length + 1 := by
  unfold spawnBoss random
  simp

theorem ensureSpawnsLoop_preserves (rnd : ℕ → ℚ) (needSeg : ℤ) :
    ∀ (n : ℕ) (s : State),
      (ensureSpawnsLoop rnd needSeg n s).time = s.time ∧
      (ensureSpawnsLoop rnd needSeg n s).dist = s.dist ∧
      (ensureSpawnsLoop rnd needSeg n s).player = s.player ∧
      (ensureSpawnsLoop rnd needSeg n s).attackBonus = s.attackBonus ∧
      (ensureSpawnsLoop rnd needSeg n s).items = s.items := by
  intro n
  induction n with
  | zero => exact fun s => ⟨rfl, rfl, rfl, rfl, rfl⟩
  | succ n ih =>
    intro s
    simp only [ensureSpawnsLoop]
    by_cases hg : s.lastSeg < needSeg
    · simp only [if_pos hg]
      by_cases h0 : (s.lastSeg + 1) % 3 = 0
      · simp only [if_pos h0]
        refine ⟨?_, ?_, ?_, ?_, ?_⟩ <;>
          simp [ih, spawnGatePair_preserves]
      · by_cases h1 : (s.lastSeg + 1) % 3 = 1
        · simp only [if_neg h0, if_pos h1]
          refine ⟨?_, ?_, ?_, ?_, ?_⟩ <;>
            simp [ih, spawnZombies_preserves]
        · simp only [if_neg h0, if_neg h1]
          refine ⟨?_, ?_, ?_, ?_, ?_⟩ <;>
            simp [ih, spawnObstacle_preserves]
    · simp [if_neg hg]

theorem ensureSpawns_preserves (rnd : ℕ → ℚ) (s : State) :
    (ensureSpawns rnd s).time = s.time ∧ (ensureSpawns rnd s).dist = s.dist ∧
    (ensureSpawns rnd s).player = s.player ∧
    (ensureSpawns rnd s).attackBonus = s.attackBonus ∧
    (ensureSpawns rnd s).items = s.items :=
  ensureSpawnsLoop_preserves rnd _ _ _

theorem bossSpawnLoop_preserves (rnd : ℕ → ℚ) :
    ∀ (n : ℕ) (s : State),
      (bossSpawnLoop rnd n s).time = s.time ∧
      (bossSpawnLoop rnd n s).dist = s.dist ∧
      (bossSpawnLoop rnd n s).player = s.player ∧
      (bossSpawnLoop rnd n s).attackBonus = s.attackBonus ∧
      (bossSpawnLoop rnd n s).items = s.items := by
  intro n
  induction n with
  | zero => exact fun s => ⟨rfl, rfl, rfl, rfl, rfl⟩
  | succ n ih =>
    intro s
    simp only [bossSpawnLoop]
    by_cases hg : s.nextBossDist ≤ s.dist
    · simp only [if_pos hg]
      refine ⟨?_, ?_, ?_, ?_, ?_⟩ <;>
        simp [ih, spawnBoss_preserves]
    · simp [if_neg hg]

theorem ensureBossSpawn_preserves (rnd : ℕ → ℚ) (s : State) :
    (ensureBossSpawn rnd s).time = s.time ∧ (ensureBossSpawn rnd s).dist = s.dist ∧
    (ensureBossSpawn rnd s).player = s.player ∧
    (ensureBossSpawn rnd s).attackBonus = s.attackBonus ∧
    (ensureBossSpawn rnd s).items = s.items :=
  bossSpawnLoop_preserves rnd _ _

theorem shootAtNearest_preserves (s : State) (dt : ℚ) :
    (shootAtNearest s dt).time = s.time ∧ (shootAtNearest s dt).dist = s.dist ∧
    (shootAtNearest s dt).player = s.player ∧
    (shootAtNearest s dt).attackBonus = s.attackBonus ∧
    (shootAtNearest s dt).items = s.items ∧
    (shootAtNearest s dt).scoreValue = s.scoreValue ∧
    (shootAtNearest s dt).alive = s.alive := by
  unfold shootAtNearest
  dsimp only
  split <;> exact ⟨rfl, rfl, rfl, rfl, rfl, rfl, rfl⟩

theorem hurtPlayer_preserves (s : State) (amount : ℚ) :
    (hurtPlayer s amount).time = s.time ∧ (hurtPlayer s amount).dist = s.dist ∧
    (hurtPlayer s amount).player = s.player ∧
    (hurtPlayer s amount).attackBonus = s.attackBonus ∧
    (hurtPlayer s amount).items = s.items := by
  unfold hurtPlayer spawnFloater
  dsimp only
  split
  · split <;> exact ⟨rfl, rfl, rfl, rfl, rfl⟩
  · exact ⟨rfl, rfl, rfl, rfl, rfl⟩

theorem obstaclesContact_preserves :
    ∀ (l : List Obstacle) (s : State),
      (obstaclesContact s l).time = s.time ∧ (obstaclesContact s l).dist = s.dist ∧
      (obstaclesContact s l).player = s.player ∧
      (obstaclesContact s l).attackBonus = s.attackBonus ∧
      (obstaclesContact s l).items = s.items := by
  intro l
  induction l with
  | nil => exact fun s => ⟨rfl, rfl, rfl, rfl, rfl⟩
  | cons o os ih =>
    intro s
    simp only [obstaclesContact]
    by_cases hd : s.alive = false
    · simp [if_pos hd]
    · simp only [if_neg hd]
      by_cases hhp : o.hp ≤ 0
      · simp only [if_pos hhp]; exact ih s
      · simp only [if_neg hhp]
        by_cases hab : aabb s.player o.toRect
        · simp only [if_pos hab]
          refine ⟨?_, ?_, ?_, ?_, ?_⟩ <;>
            simp [ih, hurtPlayer_preserves]
        · simp only [if_neg hab]; exact ih s

theorem zombiesContact_preserves :
    ∀ (l : List Enemy) (s : State),
      (zombiesContact s l).time = s.time ∧ (zombiesContact s l).dist = s.dist ∧
      (zombiesContact s l).player = s.player ∧
      (zombiesContact s l).attackBonus = s.attackBonus ∧
      (zombiesContact s l).items = s.items := by
  intro l
  induction l with
  | nil => exact fun s => ⟨rfl, rfl, rfl, rfl, rfl⟩
  | cons z zs ih =>
    intro s
    simp only [zombiesContact]
    by_cases hhp : z.hp ≤ 0
    · simp only [if_pos hhp]; exact ih s
    · simp only [if_neg hhp]
      by_cases hab : aabb s.player z.toRect
      · simp only [if_pos hab]
        refine ⟨?_, ?_, ?_, ?_, ?_⟩ <;>
          simp [ih, hurtPlayer_preserves]
      · simp only [if_neg hab]; exact ih s

theorem bossesContact_preserves :
    ∀ (l : List Enemy) (s : State),
      (bossesContact s l).time = s.time ∧ (bossesContact s l).dist = s.dist ∧
      (bossesContact s l).player = s.player ∧
      (bossesContact s l).attackBonus = s.attackBonus ∧
      (bossesContact s l).items = s.items := by
  intro l
  induction l with
  | nil => exact fun s => ⟨rfl, rfl, rfl, rfl, rfl⟩
  | cons bo bs ih =>
    intro s
    simp only [bossesContact]
    by_cases hhp : bo.hp ≤ 0
    · simp only [if_pos hhp]; exact ih s
    · simp only [if_neg hhp]
      by_cases hab : aabb s.player bo.toRect
      · simp only [if_pos hab]
        refine ⟨?_, ?_, ?_, ?_, ?_⟩ <;>
          simp [ih, hurtPlayer_preserves]
      · simp only [if_neg hab]; exact ih s

/-! ## Boss threshold catch-up (C5) -/

theorem bossSpawnNeeded_pos (s : State) (h : s.nextBossDist ≤ s.dist) :
    1 ≤ bossSpawnNeeded s := by
  unfold bossSpawnNeeded
  have hq : 0 ≤ (s.dist - s.nextBossDist) / BOSS_INTERVAL :=
    div_nonneg (by linarith) (by norm_num [BOSS_INTERVAL])
  have hf : 0 ≤ ⌊(s.dist - s.nextBossDist) / BOSS_INTERVAL⌋ := Int.floor_nonneg.mpr hq
  omega

theorem bossSpawnNeeded_zero (s : State) (h : ¬ s.nextBossDist ≤ s.dist) :
    bossSpawnNeeded s = 0 := by
  unfold bossSpawnNeeded
  have hq : (s.dist - s.nextBossDist) / BOSS_INTERVAL < 0 :=
    div_neg_of_neg_of_pos (by linarith) (by norm_num [BOSS_INTERVAL])
  have hf : ⌊(s.dist - s.nextBossDist) / BOSS_INTERVAL⌋ < 0 := by
    rw [Int.floor_lt]
    exact_mod_cast hq
  omega

theorem bossSpawnNeeded_spawnBoss (rnd : ℕ → ℚ) (s : State)
    (h : s.nextBossDist ≤ s.dist) :
    bossSpawnNeeded s = bossSpawnNeeded (spawnBoss rnd s) + 1 := by
  unfold bossSpawnNeeded
  rw [(spawnBoss_preserves rnd s).2.1, spawnBoss_nextBossDist]
  have h1 : (s.dist - (s.nextBossDist + BOSS_INTERVAL)) / BOSS_INTERVAL
      = (s.dist - s.nextBossDist) / BOSS_INTERVAL - 1 := by
    unfold BOSS_INTERVAL
    ring
  have hq : 0 ≤ (s.dist - s.nextBossDist) / BOSS_INTERVAL :=
    div_nonneg (by linarith) (by norm_num [BOSS_INTERVAL])
  have hf : 0 ≤ ⌊(s.dist - s.nextBossDist) / BOSS_INTERVAL⌋ := Int.floor_nonneg.mpr hq
  rw [h1, Int.floor_sub_one]
  omega

theorem bossSpawnLoop_spec (rnd : ℕ → ℚ) :
    ∀ (n : ℕ) (s : State), bossSpawnNeeded s ≤ n →
      (bossSpawnLoop rnd n s).dist = s.dist ∧
      (bossSpawnLoop rnd n s).nextBossDist
        = s.nextBossDist + BOSS_INTERVAL * (bossSpawnNeeded s : ℚ) ∧
      (bossSpawnLoop rnd n s).bosses.length = s.bosses.length + bossSpawnNeeded s := by
  intro n
  induction n with
  | zero =>
    intro s hn
    have h0 : bossSpawnNeeded s = 0 := Nat.le_zero.mp hn
    simp [bossSpawnLoop, h0]
  | succ n ih =>
    intro s hn
    simp only [bossSpawnLoop]
    by_cases hg : s.nextBossDist ≤ s.dist
    · simp only [if_pos hg]
      have hdec := bossSpawnNeeded_spawnBoss rnd s hg
      have hle : bossSpawnNeeded (spawnBoss rnd s) ≤ n := by omega
      obtain ⟨ihd, ihn, ihl⟩ := ih (spawnBoss rnd s) hle
      refine ⟨?_, ?_, ?_⟩
      · rw [ihd, (spawnBoss_preserves rnd s).2.1]
      · rw [ihn, spawnBoss_nextBossDist, hdec]
        push_cast
        unfold BOSS_INTERVAL
        ring
      · rw [ihl, spawnBoss_bosses_length, hdec]
        omega
    · simp only [if_neg hg]
      have h0 : bossSpawnNeeded s = 0 := bossSpawnNeeded_zero s hg
      simp [h0]

theorem ensureBossSpawn_dist_lt (s : State) :
    s.dist < s.nextBossDist + BOSS_INTERVAL * (bossSpawnNeeded s : ℚ) := by
  by_cases hg : s.nextBossDist ≤ s.dist
  · have hq : 0 ≤ (s.dist - s.nextBossDist) / BOSS_INTERVAL :=
      div_nonneg (by linarith) (by norm_num [BOSS_INTERVAL])
    have hf : 0 ≤ ⌊(s.dist - s.nextBossDist) / BOSS_INTERVAL⌋ := Int.floor_nonneg.mpr hq
    have hlt : (s.dist - s.nextBossDist) / BOSS_INTERVAL
        < ⌊(s.dist - s.nextBossDist) / BOSS_INTERVAL⌋ + 1 :=
      Int.lt_floor_add_one _
    have htn : ((⌊(s.dist - s.nextBossDist) / BOSS_INTERVAL⌋ + 1).toNat : ℤ)
        = ⌊(s.dist - s.nextBossDist) / BOSS_INTERVAL⌋ + 1 :=
      Int.toNat_of_nonneg (by omega)
    have hcast : ((bossSpawnNeeded s : ℕ) : ℚ)
        = ((⌊(s.dist - s.nextBossDist) / BOSS_INTERVAL⌋ : ℤ) : ℚ) + 1 := by
      unfold bossSpawnNeeded
      exact_mod_cast htn
    have hmul : (s.dist - s.nextBossDist) / BOSS_INTERVAL * BOSS_INTERVAL
        = s.dist - s.nextBossDist :=
      div_mul_cancel₀ _ (by norm_num [BOSS_INTERVAL])
    have hBpos : (0 : ℚ) < BOSS_INTERVAL := by norm_num [BOSS_INTERVAL]
    have hstep : (s.dist - s.nextBossDist) / BOSS_INTERVAL * BOSS_INTERVAL
        < ((⌊(s.dist - s.nextBossDist) / BOSS_INTERVAL⌋ : ℤ) + 1 : ℚ) * BOSS_INTERVAL :=
      mul_lt_mul_of_pos_right hlt hBpos
    rw [hcast]
    push_cast at hstep ⊢
    nlinarith [hstep, hmul]
  · have h0 : bossSpawnNeeded s = 0 := bossSpawnNeeded_zero s hg
    rw [h0]
    push_cast
    linarith [lt_of_not_le hg]

/-- C5: `ensureBossSpawn` loops over every crossed threshold: the distance
is unchanged, afterwards `dist < nextBossDist`, the threshold advanced by
`BOSS_INTERVAL` per boss spawned, and exactly one boss was appended per
crossed threshold (`bossSpawnNeeded`); concretely, from `nextBossDist =
2000` and a distance that jumped to 5000, exactly 2 bosses are spawned
and `nextBossDist` becomes 6000. -/
theorem ensureBossSpawn_spec :
    (∀ (rnd : ℕ → ℚ) (s : State),
      (ensureBossSpawn rnd s).dist = s.dist ∧
      (ensureBossSpawn rnd s).dist < (ensureBossSpawn rnd s).nextBossDist ∧
      (ensureBossSpawn rnd s).nextBossDist
        = s.nextBossDist + BOSS_INTERVAL * (bossSpawnNeeded s : ℚ) ∧
      (ensureBossSpawn rnd s).bosses.length = s.bosses.length + bossSpawnNeeded s)
    ∧ (∀ rnd : ℕ → ℚ,
      (ensureBossSpawn rnd { initState with dist := 5000 }).bosses.length = 2 ∧
      (ensureBossSpawn rnd { initState with dist := 5000 }).nextBossDist = 6000) := by
  have hgen : ∀ (rnd : ℕ → ℚ) (s : State),
      (ensureBossSpawn rnd s).dist = s.dist ∧
      (ensureBossSpawn rnd s).dist < (ensureBossSpawn rnd s).nextBossDist ∧
      (ensureBossSpawn rnd s).nextBossDist
        = s.nextBossDist + BOSS_INTERVAL * (bossSpawnNeeded s : ℚ) ∧
      (ensureBossSpawn rnd s).bosses.length = s.bosses.length + bossSpawnNeeded s := by
    intro rnd s
    unfold ensureBossSpawn
    obtain ⟨hd, hn, hl⟩ := bossSpawnLoop_spec rnd (bossSpawnNeeded s) s le_rfl
    refine ⟨hd, ?_, hn, hl⟩
    rw [hd, hn]
    exact ensureBossSpawn_dist_lt s
  refine ⟨hgen, fun rnd => ?_⟩
  have hneed : bossSpawnNeeded { initState with dist := 5000 } = 2 := by
    with_unfolding_all decide
  obtain ⟨-, -, hn, hl⟩ := hgen rnd { initState with dist := 5000 }
  constructor
  · rw [hl, hneed]
    simp [initState]
  · rw [hn, hneed]
    norm_num [initState, BOSS_INTERVAL]

/-! ## Death on zero score (C2) -/

theorem hurtPlayer_kills_at_zero (s : State) (amt : ℚ) (halive : s.alive = true)
    (hamt : 0 < amt) (hz : (hurtPlayer s amt).scoreValue ≤ 0) :
    (hurtPlayer s amt).alive = false := by
  unfold hurtPlayer spawnFloater at hz ⊢
  rw [if_pos ⟨halive, hamt⟩] at hz ⊢
  dsimp only at hz ⊢
  split
  · rfl
  · rename_i hpos
    rw [if_neg hpos] at hz
    dsimp only at hz
    exact absurd hz hpos

/-- C2 (amended): when damage (`hurtPlayer`) reduces the score value to 0,
the alive flag becomes false in that same call; and once `alive` is false
at the start of a step, `update` keeps it false and never mutates the
score again. (A gate operation that reduces the score to 0 does not set
`alive` false — see the counterexample.) -/
theorem score_zero_death_via_hurtPlayer :
    (∀ (s : State) (amt : ℚ), s.alive = true → 0 < amt →
      (hurtPlayer s amt).scoreValue ≤ 0 → (hurtPlayer s amt).alive = false)
    ∧ (∀ (rnd : ℕ → ℚ) (dt : ℚ) (s : State), s.alive = false →
      (update rnd dt s).alive = false ∧ (update rnd dt s).scoreValue = s.scoreValue) := by
  refine ⟨hurtPlayer_kills_at_zero, fun rnd dt s h => ?_⟩
  rw [update_of_dead rnd dt s h]
  exact ⟨h, rfl⟩

/-- C2 counterexample: a gate crossing that reduces the score to exactly 0
leaves `alive = true` in that same step (no `hurtPlayer` ran), refuting
"whenever the score value reaches 0 during an update step the alive flag
becomes false in that same step". -/
theorem score_zero_death_cex :
    (update rndHalf 0 gateZeroState).scoreValue = 0 ∧
      (update rndHalf 0 gateZeroState).alive = true := by
  with_unfolding_all decide

/-- Witness for the amended C2: damage from 5 hp at score 1 reaches 0 and
kills in the same call. -/
theorem score_zero_death_via_hurtPlayer_witness :
    initState.alive = true ∧ 0 < (5 : ℚ) ∧
      (hurtPlayer initState 5).scoreValue ≤ 0 ∧
      (hurtPlayer initState 5).alive = false :=
  ⟨rfl, by norm_num, by with_unfolding_all decide,
    score_zero_death_via_hurtPlayer.1 initState 5 rfl (by norm_num)
      (by with_unfolding_all decide)⟩

/-! ## The zero-dt step (C3) -/

/-- C3 (amended): a step with `dt = 0` leaves elapsed time, distance and
the player's vertical position unchanged; it is however not a no-op on
the rest of the state — see the counterexample. -/
theorem update_zero_dt_frozen :
    ∀ (rnd : ℕ → ℚ) (s : State),
      (update rnd 0 s).time = s.time ∧
      (update rnd 0 s).dist = s.dist ∧
      (update rnd 0 s).player.y = s.player.y := by
  intro rnd s
  by_cases h : s.alive = false
  · rw [update_of_dead rnd 0 s h]
    exact ⟨rfl, rfl, rfl⟩
  · unfold update
    rw [if_neg h]
    dsimp only
    constructor
    · simp [ensureBossSpawn_preserves, ensureSpawns_preserves, bossesContact_preserves,
        zombiesContact_preserves, obstaclesContact_preserves, shootAtNearest_preserves]
    constructor
    · simp [ensureBossSpawn_preserves, ensureSpawns_preserves, bossesContact_preserves,
        zombiesContact_preserves, obstaclesContact_preserves, shootAtNearest_preserves]
    · simp [ensureBossSpawn_preserves, ensureSpawns_preserves, bossesContact_preserves,
        zombiesContact_preserves, obstaclesContact_preserves, shootAtNearest_preserves]

/-- C3 counterexample: with `dt = 0` the player still slides toward the
pointer target (position change), a pending gate crossing still fires
(score change), and a boss at the lane bottom still kills (alive change) —
refuting "update(0) changes no entity position, no score value, and no
alive flag". -/
theorem update_zero_dt_cex :
    (update rndHalf 0 c3cexState).player.x ≠ c3cexState.player.x ∧
      (update rndHalf 0 c3cexState).scoreValue ≠ c3cexState.scoreValue ∧
      (update rndHalf 0 c3cexState).alive ≠ c3cexState.alive := by
  with_unfolding_all decide

/-! ## The attack-bonus invariant (C9) -/

theorem moveItem_bonus (dy dt : ℚ) (it : Item) : (moveItem dy dt it).bonus = it.bonus := rfl

theorem itemsStep_attackBonus_bounds (player : Rect) (dy dt : ℚ) :
    ∀ (its : List Item) (ab : ℚ) (fs : List Floater),
      0 ≤ ab → ab ≤ MAX_ATTACK_BONUS → (∀ it ∈ its, 0 ≤ it.bonus) →
      0 ≤ (itemsStep player dy dt its ab fs).attackBonus ∧
        (itemsStep player dy dt its ab fs).attackBonus ≤ MAX_ATTACK_BONUS := by
  intro its
  induction its with
  | nil => exact fun ab fs h0 h6 _ => ⟨h0, h6⟩
  | cons it its ih =>
    intro ab fs h0 h6 hb
    have hbtail : ∀ x ∈ its, 0 ≤ x.bonus := fun x hx => hb x (List.mem_cons_of_mem _ hx)
    have hbhead : 0 ≤ it.bonus := hb it (List.mem_cons_self _ _)
    simp only [itemsStep]
    by_cases hc : (moveItem dy dt it).collected = true
    · simp only [if_pos hc]
      exact ih ab fs h0 h6 hbtail
    · simp only [if_neg hc]
      by_cases hov : ¬ aabb player (moveItem dy dt it).toRect
      · simp only [if_pos hov]
        exact ih ab fs h0 h6 hbtail
      · simp only [if_neg hov]
        have h0' : 0 ≤ min MAX_ATTACK_BONUS (ab + (moveItem dy dt it).bonus) := by
          rw [moveItem_bonus]
          exact le_min (by norm_num [MAX_ATTACK_BONUS]) (add_nonneg h0 hbhead)
        have h6' : min MAX_ATTACK_BONUS (ab + (moveItem dy dt it).bonus)
            ≤ MAX_ATTACK_BONUS := min_le_left _ _
        exact ih _ _ h0' h6' hbtail

theorem itemsStep_items_bonus (player : Rect) (dy dt : ℚ) :
    ∀ (its : List Item) (ab : ℚ) (fs : List Floater),
      (∀ it ∈ its, 0 ≤ it.bonus) →
      ∀ it ∈ (itemsStep player dy dt its ab fs).items, 0 ≤ it.bonus := by
  intro its
  induction its with
  | nil => intro ab fs _ it hit; simp [itemsStep] at hit
  | cons it its ih =>
    intro ab fs hb x hx
    have hbtail : ∀ y ∈ its, 0 ≤ y.bonus := fun y hy => hb y (List.mem_cons_of_mem _ hy)
    have hbhead : 0 ≤ it.bonus := hb it (List.mem_cons_self _ _)
    simp only [itemsStep] at hx
    by_cases hc : (moveItem dy dt it).collected = true
    · simp only [if_pos hc] at hx
      rcases List.mem_cons.mp hx with h | h
      · rw [h, moveItem_bonus]; exact hbhead
      · exact ih ab fs hbtail x h
    · simp only [if_neg hc] at hx
      by_cases hov : ¬ aabb player (moveItem dy dt it).toRect
      · simp only [if_pos hov] at hx
        rcases List.mem_cons.mp hx with h | h
        · rw [h, moveItem_bonus]; exact hbhead
        · exact ih ab fs hbtail x h
      · simp only [if_neg hov] at hx
        rcases List.mem_cons.mp hx with h | h
        · rw [h]; exact hbhead
        · exact ih _ _ hbtail x h

theorem obstacleDrop_bonus_nonneg (o : Obstacle) : 0 ≤ (obstacleDrop o).bonus :=
  le_trans zero_le_one (le_max_left 1 _)

theorem hitObstacles_drop_bonus (b : Bullet) :
    ∀ (os os' : List Obstacle) (fx fy : ℚ) (it : Item),
      hitObstacles b os = some (os', fx, fy, some it) → 0 ≤ it.bonus := by
  intro os
  induction os with
  | nil => intro os' fx fy it h; simp [hitObstacles] at h
  | cons o os ih =>
    intro os' fx fy it h
    simp only [hitObstacles] at h
    by_cases hsk : o.hp ≤ 0 ∨ ¬ aabb b.toRect o.toRect
    · rw [if_pos hsk] at h
      rcases heq : hitObstacles b os with - | r
      · rw [heq] at h; exact absurd h (by simp)
      · rw [heq] at h
        obtain ⟨os₂, fx₂, fy₂, drop₂⟩ := r
        simp only [Option.some.injEq, Prod.mk.injEq] at h
        obtain ⟨-, -, -, hdrop⟩ := h
        subst hdrop
        exact ih os₂ fx₂ fy₂ it heq
    · rw [if_neg hsk] at h
      simp only [Option.some.injEq, Prod.mk.injEq] at h
      obtain ⟨-, -, -, hdrop⟩ := h
      by_cases hdead : (damageObstacle b.dmg o).hp ≤ 0
      · rw [if_pos hdead] at hdrop
        cases hdrop
        exact obstacleDrop_bonus_nonneg _
      · rw [if_neg hdead] at hdrop
        exact absurd hdrop (by simp)

theorem resolveBullet_items_bonus (zs bs : List Enemy) (os : List Obstacle)
    (its : List Item) (fs : List Floater) (b : Bullet)
    (h : ∀ it ∈ its, 0 ≤ it.bonus) :
    ∀ it ∈ (resolveBullet zs bs os its fs b).items, 0 ≤ it.bonus := by
  unfold resolveBullet
  split
  · exact h
  · split
    · exact h
    · split
      · exact h
      · split
        · rename_i os' fx fy drop heq
          intro it hit
          rcases List.mem_append.mp hit with hmem | hmem
          · exact h it hmem
          · rcases drop with - | d
            · simp at hmem
            · simp only [Option.toList_some, List.mem_singleton] at hmem
              subst hmem
              exact hitObstacles_drop_bonus b os os' fx fy it heq
        · exact h

theorem bulletsStep_items_bonus :
    ∀ (bl : List Bullet) (zs bs : List Enemy) (os : List Obstacle)
      (its : List Item) (fs : List Floater),
      (∀ it ∈ its, 0 ≤ it.bonus) →
      ∀ it ∈ (bulletsStep zs bs os its fs bl).items, 0 ≤ it.bonus := by
  intro bl
  induction bl with
  | nil => intro zs bs os its fs h; exact h
  | cons b rest ih =>
    intro zs bs os its fs h
    simp only [bulletsStep]
    exact ih _ _ _ _ _ (resolveBullet_items_bonus zs bs os its fs b h)

theorem pruneItems_mem (l : List Item) (it : Item) (h : it ∈ pruneItems l) : it ∈ l :=
  (List.mem_filter.mp h).1

theorem update_preserves_attackBonusInv (rnd : ℕ → ℚ) (dt : ℚ) (s : State)
    (hInv : AttackBonusInv s) : AttackBonusInv (update rnd dt s) := by
  obtain ⟨h0, h6, hb⟩ := hInv
  by_cases hd : s.alive = false
  · rw [update_of_dead rnd dt s hd]
    exact ⟨h0, h6, hb⟩
  · unfold update
    rw [if_neg hd]
    dsimp only
    refine ⟨?_, ?_, ?_⟩
    · simp only [ensureBossSpawn_preserves, ensureSpawns_preserves, bossesContact_preserves,
        zombiesContact_preserves, obstaclesContact_preserves, shootAtNearest_preserves]
      exact (itemsStep_attackBonus_bounds _ _ _ _ _ _ h0 h6
        (bulletsStep_items_bonus _ _ _ _ _ _ hb)).1
    · simp only [ensureBossSpawn_preserves, ensureSpawns_preserves, bossesContact_preserves,
        zombiesContact_preserves, obstaclesContact_preserves, shootAtNearest_preserves]
      exact (itemsStep_attackBonus_bounds _ _ _ _ _ _ h0 h6
        (bulletsStep_items_bonus _ _ _ _ _ _ hb)).2
    · simp only [ensureBossSpawn_preserves, ensureSpawns_preserves, bossesContact_preserves,
        zombiesContact_preserves, obstaclesContact_preserves, shootAtNearest_preserves]
      intro it hit
      exact itemsStep_items_bonus _ _ _ _ _ _
        (bulletsStep_items_bonus _ _ _ _ _ _ hb) it (pruneItems_mem _ it hit)

/-- C9: the global attack bonus starts at 0 and, together with the
invariant that every pending item has a non-negative bonus, stays in
`[0, MAX_ATTACK_BONUS] = [0, 6]` across every update step, no matter how
many items are collected. -/
theorem attackBonus_in_range :
    (initState.attackBonus = 0 ∧ AttackBonusInv initState)
    ∧ ∀ (rnd : ℕ → ℚ) (dt : ℚ) (s : State),
      AttackBonusInv s → AttackBonusInv (update rnd dt s) := by
  refine ⟨⟨rfl, ?_, ?_, ?_⟩, update_preserves_attackBonusInv⟩
  · norm_num [initState]
  · norm_num [initState, MAX_ATTACK_BONUS]
  · simp [initState]

/-- Witness for C9: the invariant holds initially and after one step. -/
theorem attackBonus_in_range_witness :
    AttackBonusInv initState ∧ AttackBonusInv (update rndHalf 1 initState) :=
  ⟨attackBonus_in_range.1.2,
    attackBonus_in_range.2 rndHalf 1 initState attackBonus_in_range.1.2⟩

/-! ## Characterization of the bullet hit scans (C6, C7) -/

theorem hitEnemies_none_iff (b : Bullet) :
    ∀ l : List Enemy, hitEnemies b l = none ↔ ∀ e ∈ l, enemySkipped b e := by
  intro l
  induction l with
  | nil => simp [hitEnemies]
  | cons e es ih =>
    simp only [hitEnemies]
    by_cases hsk : e.hp ≤ 0 ∨ ¬ aabb b.toRect e.toRect
    · rw [if_pos hsk]
      constructor
      · intro h x hx
        rcases List.mem_cons.mp hx with rfl | hmem
        · exact hsk
        · refine ih.mp ?_ x hmem
          rcases heq : hitEnemies b es with - | r
          · rfl
          · rw [heq] at h
            obtain ⟨es', fx, fy⟩ := r
            exact absurd h (by simp)
      · intro h
        rw [ih.mpr fun x hx => h x (List.mem_cons_of_mem _ hx)]
    · rw [if_neg hsk]
      constructor
      · intro h
        exact absurd h (by simp)
      · intro h
        exact absurd (h e (List.mem_cons_self _ _)) hsk

theorem hitEnemies_some_spec (b : Bullet) :
    ∀ (l : List Enemy) (r : List Enemy × ℚ × ℚ), hitEnemies b l = some r →
      ∃ i, firstHitEnemy b l i ∧ ∃ hi : i < l.length,
        r = (l.set i (damageEnemy b.dmg (l.get ⟨i, hi⟩)),
             (l.get ⟨i, hi⟩).x + (l.get ⟨i, hi⟩).w / 2, (l.get ⟨i, hi⟩).y) := by
  intro l
  induction l with
  | nil => intro r h; simp [hitEnemies] at h
  | cons e es ih =>
    intro r h
    simp only [hitEnemies] at h
    by_cases hsk : e.hp ≤ 0 ∨ ¬ aabb b.toRect e.toRect
    · rw [if_pos hsk] at h
      rcases heq : hitEnemies b es with - | r₂
      · rw [heq] at h
        exact absurd h (by simp)
      · rw [heq] at h
        obtain ⟨es', fx, fy⟩ := r₂
        simp only [Option.some.injEq] at h
        obtain ⟨i, ⟨hi, hhit, hfirst⟩, hi', hr⟩ := ih (es', fx, fy) heq
        simp only [Prod.mk.injEq] at hr
        obtain ⟨hr1, hr2, hr3⟩ := hr
        subst hr1; subst hr2; subst hr3
        rw [← h]
        refine ⟨i + 1, ⟨Nat.succ_lt_succ hi, hhit, ?_⟩, Nat.succ_lt_succ hi', rfl⟩
        intro j hj hji
        match j, hj, hji with
        | 0, _, _ => exact hsk
        | j + 1, hj, hji => exact hfirst j (Nat.lt_of_succ_lt_succ hj) (Nat.lt_of_succ_lt_succ hji)
    · rw [if_neg hsk] at h
      simp only [Option.some.injEq] at h
      rw [← h]
      exact ⟨0, ⟨Nat.succ_pos _, hsk, fun j hj hj0 => absurd hj0 (Nat.not_lt_zero j)⟩,
        Nat.succ_pos _, rfl⟩

theorem hitObstacles_none_iff (b : Bullet) :
    ∀ l : List Obstacle, hitObstacles b l = none ↔ ∀ o ∈ l, obstacleSkipped b o := by
  intro l
  induction l with
  | nil => simp [hitObstacles]
  | cons o os ih =>
    simp only [hitObstacles]
    by_cases hsk : o.hp ≤ 0 ∨ ¬ aabb b.toRect o.toRect
    · rw [if_pos hsk]
      constructor
      · intro h x hx
        rcases List.mem_cons.mp hx with rfl | hmem
        · exact hsk
        · refine ih.mp ?_ x hmem
          rcases heq : hitObstacles b os with - | r
          · rfl
          · rw [heq] at h
            obtain ⟨os', fx, fy, drop⟩ := r
            exact absurd h (by simp)
      · intro h
        rw [ih.mpr fun x hx => h x (List.mem_cons_of_mem _ hx)]
    · rw [if_neg hsk]
      constructor
      · intro h
        exact absurd h (by simp)
      · intro h
        exact absurd (h o (List.mem_cons_self _ _)) hsk

theorem hitObstacles_some_spec (b : Bullet) :
    ∀ (l : List Obstacle) (r : List Obstacle × ℚ × ℚ × Option Item),
      hitObstacles b l = some r →
      ∃ i, firstHitObstacle b l i ∧ ∃ hi : i < l.length,
        r = (l.set i (damageObstacle b.dmg (l.get ⟨i, hi⟩)),
             (l.get ⟨i, hi⟩).x + (l.get ⟨i, hi⟩).w / 2, (l.get ⟨i, hi⟩).y,
             if (damageObstacle b.dmg (l.get ⟨i, hi⟩)).hp ≤ 0 then
               some (obstacleDrop (damageObstacle b.dmg (l.get ⟨i, hi⟩)))
             else none) := by
  intro l
  induction l with
  | nil => intro r h; simp [hitObstacles] at h
  | cons o os ih =>
    intro r h
    simp only [hitObstacles] at h
    by_cases hsk : o.hp ≤ 0 ∨ ¬ aabb b.toRect o.toRect
    · rw [if_pos hsk] at h
      rcases heq : hitObstacles b os with - | r₂
      · rw [heq] at h
        exact absurd h (by simp)
      · rw [heq] at h
        obtain ⟨os', fx, fy, drop⟩ := r₂
        simp only [Option.some.injEq] at h
        obtain ⟨i, ⟨hi, hhit, hfirst⟩, hi', hr⟩ := ih (os', fx, fy, drop) heq
        simp only [Prod.mk.injEq] at hr
        obtain ⟨hr1, hr2, hr3, hr4⟩ := hr
        subst hr1; subst hr2; subst hr3; subst hr4
        rw [← h]
        refine ⟨i + 1, ⟨Nat.succ_lt_succ hi, hhit, ?_⟩, Nat.succ_lt_succ hi', rfl⟩
        intro j hj hji
        match j, hj, hji with
        | 0, _, _ => exact hsk
        | j + 1, hj, hji => exact hfirst j (Nat.lt_of_succ_lt_succ hj) (Nat.lt_of_succ_lt_succ hji)
    · rw [if_neg hsk] at h
      simp only [Option.some.injEq] at h
      rw [← h]
      exact ⟨0, ⟨Nat.succ_pos _, hsk, fun j hj hj0 => absurd hj0 (Nat.not_lt_zero j)⟩,
        Nat.succ_pos _, rfl⟩

/-- C6: resolving one live bullet damages at most one entity, testing
zombies first, then bosses, then (only on a complete miss of both enemy
groups) obstacles, always at the first live overlapped entry in
collection order; the hit consumes the bullet (`life := 0`), emits one
damage floater, and leaves every other collection unchanged (an obstacle
kill additionally appends its attack item). -/
theorem bullet_single_hit (zs bs : List Enemy) (os : List Obstacle) (its : List Item)
    (fs : List Floater) (b : Bullet) (hb : 0 < b.life) :
    (resolveBullet zs bs os its fs b = ⟨b, zs, bs, os, its, fs⟩
      ∧ (∀ e ∈ zs, enemySkipped b e) ∧ (∀ e ∈ bs, enemySkipped b e)
      ∧ (∀ o ∈ os, obstacleSkipped b o))
    ∨ (∃ i, firstHitEnemy b zs i ∧ ∃ hi : i < zs.length,
        resolveBullet zs bs os its fs b =
          ⟨{ b with life := 0 },
           zs.set i (damageEnemy b.dmg (zs.get ⟨i, hi⟩)), bs, os, its,
           fs ++ [mkFloater ("-" ++ toString b.dmg)
             ((zs.get ⟨i, hi⟩).x + (zs.get ⟨i, hi⟩).w / 2) (zs.get ⟨i, hi⟩).y]⟩)
    ∨ ((∀ e ∈ zs, enemySkipped b e) ∧ ∃ i, firstHitEnemy b bs i ∧ ∃ hi : i < bs.length,
        resolveBullet zs bs os its fs b =
          ⟨{ b with life := 0 }, zs,
           bs.set i (damageEnemy b.dmg (bs.get ⟨i, hi⟩)), os, its,
           fs ++ [mkFloater ("-" ++ toString b.dmg)
             ((bs.get ⟨i, hi⟩).x + (bs.get ⟨i, hi⟩).w / 2) (bs.get ⟨i, hi⟩).y]⟩)
    ∨ ((∀ e ∈ zs, enemySkipped b e) ∧ (∀ e ∈ bs, enemySkipped b e)
        ∧ ∃ i, firstHitObstacle b os i ∧ ∃ hi : i < os.length,
        resolveBullet zs bs os its fs b =
          ⟨{ b with life := 0 }, zs, bs,
           os.set i (damageObstacle b.dmg (os.get ⟨i, hi⟩)),
           its ++ (if (damageObstacle b.dmg (os.get ⟨i, hi⟩)).hp ≤ 0 then
             [obstacleDrop (damageObstacle b.dmg (os.get ⟨i, hi⟩))] else []),
           fs ++ [mkFloater ("-" ++ toString b.dmg)
             ((os.get ⟨i, hi⟩).x + (os.get ⟨i, hi⟩).w / 2) (os.get ⟨i, hi⟩).y]⟩) := by
  unfold resolveBullet
  rw [if_neg (not_le.mpr hb)]
  rcases hz : hitEnemies b zs with - | ⟨zs', fx, fy⟩
  · rcases hbs : hitEnemies b bs with - | ⟨bs', gx, gy⟩
    · rcases ho : hitObstacles b os with - | ⟨os', ox, oy, drop⟩
      · left
        exact ⟨rfl, (hitEnemies_none_iff b zs).mp hz, (hitEnemies_none_iff b bs).mp hbs,
          (hitObstacles_none_iff b os).mp ho⟩
      · right; right; right
        obtain ⟨i, hfirst, hi, hr⟩ := hitObstacles_some_spec b os (os', ox, oy, drop) ho
        simp only [Prod.mk.injEq] at hr
        obtain ⟨h1, h2, h3, h4⟩ := hr
        subst h1; subst h2; subst h3; subst h4
        refine ⟨(hitEnemies_none_iff b zs).mp hz, (hitEnemies_none_iff b bs).mp hbs,
          i, hfirst, hi, ?_⟩
        by_cases hdead : (damageObstacle b.dmg (os.get ⟨i, hi⟩)).hp ≤ 0
        · simp only [if_pos hdead, Option.toList_some]
        · simp only [if_neg hdead, Option.toList_none]
    · right; right; left
      obtain ⟨i, hfirst, hi, hr⟩ := hitEnemies_some_spec b bs (bs', gx, gy) hbs
      simp only [Prod.mk.injEq] at hr
      obtain ⟨h1, h2, h3⟩ := hr
      subst h1; subst h2; subst h3
      exact ⟨(hitEnemies_none_iff b zs).mp hz, i, hfirst, hi, rfl⟩
  · right; left
    obtain ⟨i, hfirst, hi, hr⟩ := hitEnemies_some_spec b zs (zs', fx, fy) hz
    simp only [Prod.mk.injEq] at hr
    obtain ⟨h1, h2, h3⟩ := hr
    subst h1; subst h2; subst h3
    exact ⟨i, hfirst, hi, rfl⟩

/-- Witness for C6: a live bullet over empty collections hits nothing and
changes nothing. -/
theorem bullet_single_hit_witness :
    0 < witnessBullet.life ∧
      resolveBullet [] [] [] [] [] witnessBullet = ⟨witnessBullet, [], [], [], [], []⟩ := by
  have hb : 0 < witnessBullet.life := by norm_num [witnessBullet]
  refine ⟨hb, ?_⟩
  obtain h | h | h | h := bullet_single_hit [] [] [] [] [] witnessBullet hb
  · exact h.1
  · obtain ⟨i, ⟨hi, -⟩, -⟩ := h
    exact absurd hi (by simp)
  · obtain ⟨-, i, ⟨hi, -⟩, -⟩ := h
    exact absurd hi (by simp)
  · obtain ⟨-, -, i, ⟨hi, -⟩, -⟩ := h
    exact absurd hi (by simp)

/-! ## Obstacle destruction spawns exactly one item (C7) -/

theorem obstacleDrop_damage (d : ℚ) (o : Obstacle) :
    obstacleDrop (damageObstacle d o) = obstacleDrop o := rfl

theorem countP_set_add {α : Type} (p : α → Bool) :
    ∀ (l : List α) (i : ℕ) (hi : i < l.length) (x : α),
      (l.set i x).countP p + (if p (l.get ⟨i, hi⟩) then 1 else 0)
        = l.countP p + (if p x then 1 else 0) := by
  intro l
  induction l with
  | nil => intro i hi x; simp at hi
  | cons a as ih =>
    intro i hi x
    match i with
    | 0 =>
      by_cases hpa : p a <;> by_cases hpx : p x <;>
        simp [List.countP_cons, hpa, hpx]
    | i + 1 =>
      have hi' : i < as.length := Nat.lt_of_succ_lt_succ hi
      have := ih i hi' x
      by_cases hpa : p a <;>
        simp only [List.set_cons_succ, List.countP_cons, List.get_cons_succ, hpa] <;>
        omega

theorem resolveBullet_count_spec (zs bs : List Enemy) (os : List Obstacle)
    (its : List Item) (fs : List Floater) (b : Bullet) :
    (resolveBullet zs bs os its fs b).obstacles.length = os.length ∧
    (resolveBullet zs bs os its fs b).items.length + countDead os
      = its.length + countDead (resolveBullet zs bs os its fs b).obstacles ∧
    countDead os ≤ countDead (resolveBullet zs bs os its fs b).obstacles ∧
    (∃ new, (resolveBullet zs bs os its fs b).items = its ++ new ∧
      ∀ it ∈ new, ∃ i, ∃ hi : i < os.length, it = obstacleDrop (os.get ⟨i, hi⟩)) ∧
    (∀ j (hj : j < os.length) (hj' : j < (resolveBullet zs bs os its fs b).obstacles.length),
      obstacleDrop ((resolveBullet zs bs os its fs b).obstacles.get ⟨j, hj'⟩)
        = obstacleDrop (os.get ⟨j, hj⟩)) := by
  unfold resolveBullet
  by_cases hlife : b.life ≤ 0
  · rw [if_pos hlife]
    exact ⟨by simp, by simp, by simp, ⟨[], by simp, by simp⟩, by simp⟩
  · rw [if_neg hlife]
    rcases hz : hitEnemies b zs with - | ⟨zs', fx, fy⟩
    · simp only [hz]
      rcases hbs : hitEnemies b bs with - | ⟨bs', gx, gy⟩
      · simp only [hbs]
        rcases ho : hitObstacles b os with - | ⟨os', ox, oy, drop⟩
        · simp only [ho]
          exact ⟨by simp, by simp, by simp, ⟨[], by simp, by simp⟩, by simp⟩
        · simp only [ho]
          obtain ⟨i, ⟨hi0, hhit, -⟩, hi, hr⟩ :=
            hitObstacles_some_spec b os (os', ox, oy, drop) ho
          simp only [Prod.mk.injEq] at hr
          obtain ⟨h1, h2, h3, h4⟩ := hr
          subst h1; subst h2; subst h3; subst h4
          have hlive : ¬ (os.get ⟨i, hi⟩).hp ≤ 0 := fun hc => hhit (Or.inl hc)
          have hcount := countP_set_add (fun o => decide (o.hp ≤ 0)) os i hi
            (damageObstacle b.dmg (os.get ⟨i, hi⟩))
          rw [if_neg (by simpa using hlive)] at hcount
          refine ⟨by simp, ?_, ?_, ?_, ?_⟩
          · unfold countDead
            by_cases hdead : (damageObstacle b.dmg (os.get ⟨i, hi⟩)).hp ≤ 0
            · rw [if_pos (by simpa using hdead)] at hcount
              simp only [if_pos hdead, Option.toList_some]
              simp only [List.length_append, List.length_singleton]
              omega
            · rw [if_neg (by simpa using hdead)] at hcount
              simp only [if_neg hdead, Option.toList_none]
              simp only [List.length_append, List.length_nil]
              omega
          · unfold countDead
            by_cases hdead : (damageObstacle b.dmg (os.get ⟨i, hi⟩)).hp ≤ 0
            · rw [if_pos (by simpa using hdead)] at hcount
              omega
            · rw [if_neg (by simpa using hdead)] at hcount
              omega
          · refine ⟨(if (damageObstacle b.dmg (os.get ⟨i, hi⟩)).hp ≤ 0 then
              some (obstacleDrop (damageObstacle b.dmg (os.get ⟨i, hi⟩))) else none).toList,
              rfl, ?_⟩
            intro it hit
            by_cases hdead : (damageObstacle b.dmg (os.get ⟨i, hi⟩)).hp ≤ 0
            · rw [if_pos hdead] at hit
              simp only [Option.toList_some, List.mem_singleton] at hit
              subst hit
              exact ⟨i, hi, obstacleDrop_damage _ _⟩
            · rw [if_neg hdead] at hit
              simp at hit
          · intro j hj hj'
            by_cases hij : i = j
            · subst hij
              have hget : (os.set i (damageObstacle b.dmg (os.get ⟨i, hi⟩))).get ⟨i, hj'⟩
                  = damageObstacle b.dmg (os.get ⟨i, hi⟩) := by
                simp [List.get_eq_getElem, List.getElem_set_self]
              rw [hget, obstacleDrop_damage]
            · have hget : (os.set i (damageObstacle b.dmg (os.get ⟨i, hi⟩))).get ⟨j, hj'⟩
                  = os.get ⟨j, hj⟩ := by
                simp [List.get_eq_getElem, List.getElem_set_ne hij]
              rw [hget]
      · simp only [hbs]
        exact ⟨by simp, by simp, by simp, ⟨[], by simp, by simp⟩, by simp⟩
    · simp only [hz]
      exact ⟨by simp, by simp, by simp, ⟨[], by simp, by simp⟩, by simp⟩

theorem bulletsStep_count_spec :
    ∀ (bl : List Bullet) (zs bs : List Enemy) (os : List Obstacle)
      (its : List Item) (fs : List Floater),
      (bulletsStep zs bs os its fs bl).obstacles.length = os.length ∧
      (bulletsStep zs bs os its fs bl).items.length + countDead os
        = its.length + countDead (bulletsStep zs bs os its fs bl).obstacles ∧
      countDead os ≤ countDead (bulletsStep zs bs os its fs bl).obstacles ∧
      (∃ new, (bulletsStep zs bs os its fs bl).items = its ++ new ∧
        ∀ it ∈ new, ∃ i, ∃ hi : i < os.length, it = obstacleDrop (os.get ⟨i, hi⟩)) ∧
      (∀ j (hj : j < os.length)
        (hj' : j < (bulletsStep zs bs os its fs bl).obstacles.length),
        obstacleDrop ((bulletsStep zs bs os its fs bl).obstacles.get ⟨j, hj'⟩)
          = obstacleDrop (os.get ⟨j, hj⟩)) := by
  intro bl
  induction bl with
  | nil =>
    intro zs bs os its fs
    exact ⟨rfl, rfl, le_refl _, ⟨[], by simp [bulletsStep], by simp⟩, fun j hj hj' => rfl⟩
  | cons b rest ih =>
    intro zs bs os its fs
    simp only [bulletsStep]
    obtain ⟨hlen1, hcnt1, hmono1, ⟨new1, hnew1, hshape1⟩, hgeo1⟩ :=
      resolveBullet_count_spec zs bs os its fs b
    obtain ⟨hlen2, hcnt2, hmono2, ⟨new2, hnew2, hshape2⟩, hgeo2⟩ :=
      ih (resolveBullet zs bs os its fs b).zombies (resolveBullet zs bs os its fs b).bosses
        (resolveBullet zs bs os its fs b).obstacles (resolveBullet zs bs os its fs b).items
        (resolveBullet zs bs os its fs b).floaters
    refine ⟨by rw [hlen2, hlen1], ?_, le_trans hmono1 hmono2, ?_, ?_⟩
    · omega
    · refine ⟨new1 ++ new2, by rw [hnew2, hnew1, List.append_assoc], ?_⟩
      intro it hit
      rcases List.mem_append.mp hit with hmem | hmem
      · exact hshape1 it hmem
      · obtain ⟨j, hj, heq⟩ := hshape2 it hmem
        have hjos : j < os.length := hlen1 ▸ hj
        exact ⟨j, hjos, heq.trans (hgeo1 j hjos hj)⟩
    · intro j hj hj'
      have hjmid : j < (resolveBullet zs bs os its fs b).obstacles.length := hlen1 ▸ hj
      exact (hgeo2 j hjmid hj').trans (hgeo1 j hj hjmid)

/-- C7: across the whole bullet loop, the number of attack items grows by
exactly the number of obstacles newly reduced to `hp ≤ 0` (one item per
destroyed obstacle, never zero, never more — a destroyed obstacle is
skipped by later bullets); every new item is the drop of one of the step's
obstacles, i.e. is positioned at that obstacle's bottom-center with
`bonus = max 1 (min 6 ⌊maxHp/30⌋)` and fall speed 140, which is applied
on top of the scroll delta when items move. -/
theorem obstacle_death_spawns_item :
    (∀ (zs bs : List Enemy) (os : List Obstacle) (its : List Item)
      (fs : List Floater) (bl : List Bullet),
      (bulletsStep zs bs os its fs bl).items.length + countDead os
        = its.length + countDead (bulletsStep zs bs os its fs bl).obstacles ∧
      countDead os ≤ countDead (bulletsStep zs bs os its fs bl).obstacles ∧
      ∃ new, (bulletsStep zs bs os its fs bl).items = its ++ new ∧
        ∀ it ∈ new, ∃ i, ∃ hi : i < os.length, it = obstacleDrop (os.get ⟨i, hi⟩))
    ∧ (∀ o : Obstacle,
        (obstacleDrop o).x = o.x + o.w / 2 - ATTACK_ITEM_SIZE / 2 ∧
        (obstacleDrop o).y = o.y + o.h ∧
        (obstacleDrop o).vy = ATTACK_ITEM_FALL_SPEED ∧
        (obstacleDrop o).bonus = max 1 (min MAX_ATTACK_BONUS (⌊o.maxHp / 30⌋ : ℚ)) ∧
        (obstacleDrop o).collected = false)
    ∧ (∀ (dy dt : ℚ) (it : Item),
        (moveItem dy dt it).y = it.y + dy + it.vy * dt ∧
        (moveItem dy dt it).vy = it.vy) := by
  refine ⟨fun zs bs os its fs bl => ?_, fun o => ⟨rfl, rfl, rfl, rfl, rfl⟩,
    fun dy dt it => ⟨rfl, rfl⟩⟩
  obtain ⟨-, hcnt, hmono, hshape, -⟩ := bulletsStep_count_spec bl zs bs os its fs
  exact ⟨hcnt, hmono, hshape⟩

/-- Witness for C7 on concrete inputs. -/
theorem obstacle_death_spawns_item_witness :
    ((bulletsStep [] [] [] [] [] []).items.length + countDead []
        = ([] : List Item).length + countDead (bulletsStep [] [] [] [] [] []).obstacles)
    ∧ (moveItem 2 3 itemOnPlayer).y = itemOnPlayer.y + 2 + itemOnPlayer.vy * 3 :=
  ⟨(obstacle_death_spawns_item.1 [] [] [] [] [] []).1,
    (obstacle_death_spawns_item.2.2 2 3 itemOnPlayer).1⟩

/-! ## Item collection at the bonus cap (C10) -/

/-- C10: when the attack bonus already sits at the cap, the item loop
still marks every uncollected overlapping item as collected, the bonus
stays at the cap, and no floater is emitted (gained = 0); and the item
prune filter keeps no collected item, so such an item is removed in the
same step. -/
theorem item_at_cap_consumed :
    (∀ (player : Rect) (dy dt : ℚ) (its : List Item) (fs : List Floater),
      (∀ it ∈ its, 0 ≤ it.bonus) →
      (itemsStep player dy dt its MAX_ATTACK_BONUS fs).attackBonus = MAX_ATTACK_BONUS ∧
      (itemsStep player dy dt its MAX_ATTACK_BONUS fs).floaters = fs ∧
      (itemsStep player dy dt its MAX_ATTACK_BONUS fs).items = its.map fun it =>
        let m := moveItem dy dt it
        if m.collected = false ∧ aabb player m.toRect then { m with collected := true } else m)
    ∧ ∀ l : List Item, ∀ it ∈ pruneItems l, it.collected = false := by
  constructor
  · intro player dy dt its
    induction its with
    | nil => intro fs _; exact ⟨rfl, rfl, rfl⟩
    | cons it its ih =>
      intro fs hb
      have hbtail : ∀ y ∈ its, 0 ≤ y.bonus := fun y hy => hb y (List.mem_cons_of_mem _ hy)
      have hbhead : 0 ≤ it.bonus := hb it (List.mem_cons_self _ _)
      simp only [itemsStep, List.map_cons]
      by_cases hc : (moveItem dy dt it).collected = true
      · simp only [if_pos hc]
        obtain ⟨h1, h2, h3⟩ := ih fs hbtail
        refine ⟨h1, h2, ?_⟩
        have hnc : ¬ ((moveItem dy dt it).collected = false ∧
            aabb player (moveItem dy dt it).toRect) := by
          intro hcon
          rw [hc] at hcon
          exact absurd hcon.1 (by simp)
        rw [h3, if_neg hnc]
      · simp only [if_neg hc]
        by_cases hov : ¬ aabb player (moveItem dy dt it).toRect
        · simp only [if_pos hov]
          obtain ⟨h1, h2, h3⟩ := ih fs hbtail
          refine ⟨h1, h2, ?_⟩
          have hnc : ¬ ((moveItem dy dt it).collected = false ∧
              aabb player (moveItem dy dt it).toRect) := fun hcon => hov hcon.2
          rw [h3, if_neg hnc]
        · simp only [if_neg hov]
          have hcap : min MAX_ATTACK_BONUS (MAX_ATTACK_BONUS + (moveItem dy dt it).bonus)
              = MAX_ATTACK_BONUS := by
            rw [moveItem_bonus]
            exact min_eq_left (le_add_of_nonneg_right hbhead)
          have hgain : ¬ (0 < min MAX_ATTACK_BONUS
              (MAX_ATTACK_BONUS + (moveItem dy dt it).bonus) - MAX_ATTACK_BONUS) := by
            rw [hcap]
            simp
          rw [hcap, if_neg (by rw [hcap] at hgain; simp)]
          obtain ⟨h1, h2, h3⟩ := ih fs hbtail
          refine ⟨h1, h2, ?_⟩
          have hc' : (moveItem dy dt it).collected = false := by
            revert hc
            cases (moveItem dy dt it).collected <;> simp
          have hpc : ((moveItem dy dt it).collected = false ∧
              aabb player (moveItem dy dt it).toRect) := ⟨hc', not_not.mp hov⟩
          rw [h3, if_pos hpc]
  · intro l it hit
    have := List.mem_filter.mp hit
    have hdec := of_decide_eq_true this.2
    exact hdec.2

/-- Witness for C10 at a concrete item overlapping the player with the
bonus at the cap. -/
theorem item_at_cap_consumed_witness :
    (∀ it ∈ [itemOnPlayer], 0 ≤ it.bonus) ∧
      ((itemsStep initState.player 0 0 [itemOnPlayer] MAX_ATTACK_BONUS []).attackBonus
          = MAX_ATTACK_BONUS ∧
        (itemsStep initState.player 0 0 [itemOnPlayer] MAX_ATTACK_BONUS []).floaters = [] ∧
        (itemsStep initState.player 0 0 [itemOnPlayer] MAX_ATTACK_BONUS []).items
          = [itemOnPlayer].map fun it =>
              let m := moveItem 0 0 it
              if m.collected = false ∧ aabb initState.player m.toRect then
                { m with collected := true }
              else m) :=
  ⟨by with_unfolding_all decide,
    item_at_cap_consumed.1 initState.player 0 0 [itemOnPlayer] []
      (by with_unfolding_all decide)⟩

end AdRunner
